import Mathlib

/-!
Shallow embedding of the iCAM06 tone-mapping operator (Go package `tmo`,
file `icam06.go`) and of the HDR color types (Go package `hdrcolor`,
file `color.go`), with theorems checking the natural-language
specification against the embedded code.

Modelling conventions:
* Go `float64` arithmetic is modelled over `ℚ` (exact arithmetic) for the
  value-level claims, and over an explicit extended-float type `EFloat`
  (finite/±infinity/NaN) for the claims that are about IEEE special values
  (NaN and infinity propagation).  In the `ℚ` model, division by zero
  yields 0.
* Transcendental primitives (`math.Pow`, `math.Exp`, `math.Sqrt`) have no
  exact rational semantics; pipeline-stage definitions take a `MathOps`
  record of these primitives as an explicit argument and are otherwise
  translated literally from the source.  Properties proved here are
  independent of the interpretation of these primitives.
* The parallel tile scheduler (`util.ParallelR` plus an unbuffered result
  channel) is modelled by its sequential semantics: tiles are lists of
  values in scan order, the orchestrator folds the per-tile results.  For
  the luminance reduction we model the schedule in which every tile task
  reads the shared field `t.maxLum` before the orchestrator performs any
  update (one admissible interleaving of the racy Go code).
-/

set_option maxRecDepth 10000

namespace HDRVerify

/-- Modelled from the spec: `util.Clamp(min, max, v)` from the `util` package of the repository (whose source is not provided) clamps `v` into `[min, max]`.
Over a total order this is `min (max v lo) hi`. -/
def Clamp (lo hi v : ℚ) : ℚ := min (max v lo) hi

/-- `maxLum = 20000`, the maximum luminance constant (cd/m²) from `icam06.go`. -/
def maxLumConst : ℚ := 20000

/-- `surroundFactor = 1`, average surround, from `icam06.go`. -/
def surroundFactor : ℚ := 1

/-- An XYZ (or LMS, or RGB) pixel triple. -/
abbrev Pixel := ℚ × ℚ × ℚ

/-- A pipeline buffer: pixels indexed by coordinates (the `hdr.Image` raster). -/
abbrev Img := ℕ → ℕ → Pixel

/-- Modelled from the spec: the `hdr.Image` interface (bounds, per-pixel color,
pixel count) of the root package of the repository, whose source is not provided. -/
structure HDRImageT where
  width : ℕ
  height : ℕ
  pixelAt : ℕ → ℕ → Pixel

/-- `m.Size()` = pixel count of the image. -/
def HDRImageT.Size (m : HDRImageT) : ℕ := m.width * m.height

/-- Transcendental float primitives used by the pipeline (`math.Pow`,
`math.Sqrt`, `math.Exp`); the embedded stages are parametric in their
interpretation. -/
structure MathOps where
  pow : ℚ → ℚ → ℚ
  sqrt : ℚ → ℚ
  exp : ℚ → ℚ

/-- Modelled from the spec: `colorful.LinearRgbToXyz`, the standard
sRGB-to-XYZ matrix (external collaborator library). -/
def LinearRgbToXyz (r g b : ℚ) : Pixel :=
  (0.4124564 * r + 0.3575761 * g + 0.1804375 * b,
   0.2126729 * r + 0.7151522 * g + 0.0721750 * b,
   0.0193339 * r + 0.1191920 * g + 0.9503041 * b)

/-- Modelled from the spec: `colorful.XyzToLinearRgb`, the standard
XYZ-to-sRGB matrix (external collaborator library). -/
def XyzToLinearRgb (x y z : ℚ) : Pixel :=
  (3.2404542 * x - 1.5371385 * y - 0.4985314 * z,
   -0.9692660 * x + 1.8760108 * y + 0.0415560 * z,
   0.0556434 * x - 0.2040259 * y + 1.0572252 * z)

/-- Modelled from the spec: `hdrcolor.XyzToLms`, the XYZ → D65 LMS cone
transform used by the IPT space (conversion function consumed from the
`hdrcolor` package, source file not provided). -/
def XyzToLms (x y z : ℚ) : Pixel :=
  (0.4002 * x + 0.7075 * y - 0.0807 * z,
   -0.2280 * x + 1.1500 * y + 0.0612 * z,
   0.9184 * z)

/-- Modelled from the spec: `hdrcolor.LmsToXyz`, inverse of `XyzToLms`. -/
def LmsToXyz (l m s : ℚ) : Pixel :=
  (1.8502 * l - 1.1383 * m + 0.2384 * s,
   0.3668 * l + 0.6439 * m - 0.0107 * s,
   1.0889 * s)

/-- Modelled from the spec: `hdrcolor.LmsToIpt`, the D65-LMS → IPT opponent
space matrix. -/
def LmsToIpt (l m s : ℚ) : Pixel :=
  (0.4 * l + 0.4 * m + 0.2 * s,
   4.455 * l - 4.851 * m + 0.396 * s,
   0.8056 * l + 0.3572 * m - 1.1628 * s)

/-- Modelled from the spec: `hdrcolor.IptToLms`, inverse of `LmsToIpt`. -/
def IptToLms (i p t : ℚ) : Pixel :=
  (i + 0.0976 * p + 0.2052 * t,
   i - 0.1139 * p + 0.1332 * t,
   i + 0.0326 * p - 0.6769 * t)

/-- Modelled from the spec: `hdrcolor.XyzToLmsMcat02`, the CAT02 cone
transform matrix. -/
def XyzToLmsMcat02 (x y z : ℚ) : Pixel :=
  (0.7328 * x + 0.4296 * y - 0.1624 * z,
   -0.7036 * x + 1.6975 * y + 0.0061 * z,
   0.0030 * x + 0.0136 * y + 0.9834 * z)

/-- Modelled from the spec: `hdrcolor.LmsMcat02ToXyz`, inverse CAT02 matrix. -/
def LmsMcat02ToXyz (l m s : ℚ) : Pixel :=
  (1.096124 * l - 0.278869 * m + 0.182745 * s,
   0.454369 * l + 0.473533 * m + 0.072098 * s,
   -0.009628 * l - 0.005698 * m + 1.015326 * s)

/-- `xyzD65`, the D65 white point in XYZ from `icam06.go`. -/
def xyzD65 : Pixel := (96.047, 100, 108.883)

/-- `cat02D65`, the D65 white point in CAT02 cone space, computed once at
process start by `init()` in `icam06.go`. -/
def cat02D65 : Pixel := XyzToLmsMcat02 xyzD65.1 xyzD65.2.1 xyzD65.2.2

/-- The `ICam06` pipeline state (`icam06.go`, struct `ICam06`).  The Go
buffers are `hdr.Image` values that start out as `nil`; `nil` is modelled
by the all-zero raster for the plain buffers and by the `white` field being
an arbitrary raster (the claims about `white` quantify over its content). -/
structure ICam06 where
  HDRImage : HDRImageT
  Contrast : ℚ
  MinClipping : ℚ
  MaxClipping : ℚ
  width : ℕ
  height : ℕ
  maxLum : ℚ
  normalized : Img
  baseLayer : Img
  white : Img
  detailCombined : Img

/-- `NewICam06` (`icam06.go` lines 59–68): constructor with silent
parameter clamping.  The unset Go fields take their zero values
(`maxLum = 0`, `nil` buffers modelled as zero rasters). -/
def NewICam06 (m : HDRImageT) (contrast minClipping maxClipping : ℚ) : ICam06 :=
  { HDRImage := m
    Contrast := Clamp 0.6 0.85 contrast
    MinClipping := Clamp 0 1 minClipping
    MaxClipping := Clamp 0 1 maxClipping
    width := m.width
    height := m.height
    maxLum := 0
    normalized := fun _ _ => (0, 0, 0)
    baseLayer := fun _ _ => (0, 0, 0)
    white := fun _ _ => (0, 0, 0)
    detailCombined := fun _ _ => (0, 0, 0) }

/-- One tile task of `luminance()` (`icam06.go` lines 145–157): `max` starts
at the zero value and each iteration executes `max = math.Max(t.maxLum, lum)`
(the previous value of the local `max` is discarded; this is translated
literally from the source).  `tMaxLum` is the value of the shared field
`t.maxLum` as read by this task. -/
def luminanceTile (tMaxLum : ℚ) (lums : List ℚ) : ℚ :=
  lums.foldl (fun _ lum => max tMaxLum lum) 0

/-- The `luminance()` reduction (`icam06.go` lines 142–167) under the
schedule in which every tile task reads `t.maxLum` at its initial value 0
(the Go zero value of the field) and the orchestrator then folds the tile
results with `t.maxLum = math.Max(t.maxLum, max)`. -/
def luminance (tiles : List (List ℚ)) : ℚ :=
  (tiles.map (luminanceTile 0)).foldl (fun acc m => max acc m) 0

/-- The peak-luminance value as worded by the spec: `max(cap, observed maximum
Y channel over all pixels)` with cap = `MaxLuminance = 20000`.  Stated for
comparison with `luminance` (refinement check). -/
def specPeakLuminance (lums : List ℚ) : ℚ :=
  max maxLumConst (lums.foldl (fun acc lum => max acc lum) 0)

/-- One channel of the Normalizer stage (`Perform`, `icam06.go` lines
76–83): `util.Clamp(0.00000001, maxLum, (v/t.maxLum)*maxLum)`.  Exact
rational model, faithful for nonzero `tMaxLum`; the zero-peak case, where
the program computes `0/0 = NaN` (here `0/0 = 0`), is covered by the IEEE
value-class model `normalizedChannelE` defined further below. -/
def normalizedChannel (tMaxLum v : ℚ) : ℚ :=
  Clamp 0.00000001 maxLumConst ((v / tMaxLum) * maxLumConst)

/-- The Normalizer stage per-pixel map (`Perform`, `icam06.go` lines 76–83). -/
def normalizedAt (t : ICam06) (x y : ℕ) : Pixel :=
  let p := t.HDRImage.pixelAt x y
  (normalizedChannel t.maxLum p.1,
   normalizedChannel t.maxLum p.2.1,
   normalizedChannel t.maxLum p.2.2)

/-- `chromaticAdaptation` (`icam06.go` lines 169–187).  Reads the base-layer
and the local-white-point buffers through the CAT02 cone view
(`hdr.NewLMSCAT02w(img).HDRAt(x,y).HDRPixel()`, modelled from the spec as
the CAT02 cone transform of the XYZ triple of the pixel).  This is the only
function that reads `t.white`, and it is called only from the
tone-compression stage. -/
def chromaticAdaptation (ops : MathOps) (t : ICam06) (x y : ℕ) : Pixel :=
  let b := t.baseLayer x y
  let c1 := XyzToLmsMcat02 b.1 b.2.1 b.2.2
  let w := t.white x y
  let c2 := XyzToLmsMcat02 w.1 w.2.1 w.2.2
  let la := 0.2 * c2.2.1
  let D := surroundFactor * (1 - ops.exp (-(la + 42) / 92) / 3.6)
  LmsMcat02ToXyz
    (c1.1 * (cat02D65.1 * D / c2.1 + (1 - D)))
    (c1.2.1 * (cat02D65.2.1 * D / c2.2.1 + (1 - D)))
    (c1.2.2 * (cat02D65.2.2 * D / c2.2.2 + (1 - D)))

/-- The detail-layer per-pixel closure from `Perform` (`icam06.go` lines
102–121): per-channel ratio normalized/baseLayer (in the `ℚ` model a zero
denominator yields 0, which coincides with `clampToZero` mapping the
NaN/±Inf float ratios to 0), followed by the Stevenson detail-enhancement
exponent. -/
def detailLayerAt (ops : MathOps) (t : ICam06) (x y : ℕ) : Pixel :=
  let p1 := t.normalized x y
  let p2 := t.baseLayer x y
  let X := p1.1 / p2.1
  let Y := p1.2.1 / p2.2.1
  let Z := p1.2.2 / p2.2.2
  let La := 0.2 * p2.2.1
  let k := 1 / (5 * La + 1)
  let fl := 0.2 * ops.pow k 4 * (5 * La) +
    0.1 * ops.pow (1 - ops.pow k 4) 2 * ops.pow (5 * La) (1 / 3)
  let exponent := ops.pow (fl + 0.8) 0.25
  (ops.pow X exponent, ops.pow Y exponent, ops.pow Z exponent)

/-- The detail-combination per-pixel closure from `Perform` (`icam06.go`
lines 125–134): channel-wise product of the tone-compressed image and the
detail layer. -/
def detailCombineAt (toneCompressed detailLayer : Img) (x y : ℕ) : Pixel :=
  let p1 := toneCompressed x y
  let p2 := detailLayer x y
  (p1.1 * p2.1, p1.2.1 * p2.2.1, p1.2.2 * p2.2.2)

/-- `iptColor` (`icam06.go` lines 266–277): detail-combined XYZ → D65 LMS,
per-channel gamma `|v|^0.43`, LMS → IPT. -/
def iptColor (ops : MathOps) (t : ICam06) (x y : ℕ) : Pixel :=
  let p := t.detailCombined x y
  let c := XyzToLms p.1 p.2.1 p.2.2
  let gamma := fun v : ℚ => ops.pow |v| 0.43
  LmsToIpt (gamma c.1) (gamma c.2.1) (gamma c.2.2)

/-- `reverseIptColor` (`icam06.go` lines 280–292): IPT → LMS, inverse gamma
`|v|^(1/0.43)`, LMS → XYZ. -/
def reverseIptColor (ops : MathOps) (I P T : ℚ) : Pixel :=
  let c := IptToLms I P T
  let rGamma := fun v : ℚ => ops.pow |v| (1 / 0.43)
  LmsToXyz (rGamma c.1) (rGamma c.2.1) (rGamma c.2.2)

/-- `colorfullnessXsurround` (`icam06.go` lines 294–312): Hunt-effect
colorfulness boost in IPT space, using the luminance of the base layer. -/
def colorfullnessXsurround (ops : MathOps) (t : ICam06) (x y : ℕ) : Pixel :=
  let ipt := iptColor ops t x y
  let I := ipt.1
  let P := ipt.2.1
  let T := ipt.2.2
  let Y := (t.baseLayer x y).2.1
  let La := Y * 0.2
  let k := 1 / (5 * La + 1)
  let fl := 0.2 * ops.pow k 4 * (5 * La) +
    0.1 * ops.pow (1 - ops.pow k 4) 2 * ops.pow (5 * La) (1 / 3)
  let Chroma := ops.sqrt (P * P + T * T)
  let scale := ops.pow (fl + 1) 0.2 *
    (1.29 * Chroma * Chroma - 0.27 * Chroma + 0.42) /
    (Chroma * Chroma - 0.31 * Chroma + 0.42)
  reverseIptColor ops I (P * scale) (T * scale)

/-- `normLum` closure inside `normalize` (`icam06.go` lines 342–352):
appearance-space color divided by the global peak, converted to linear RGB. -/
def normLum (ops : MathOps) (t : ICam06) (norMaxLum : ℚ) (x y : ℕ) : Pixel :=
  let p := colorfullnessXsurround ops t x y
  XyzToLinearRgb (p.1 / norMaxLum) (p.2.1 / norMaxLum) (p.2.2 / norMaxLum)

/-- One tile task of the first reduction in `normalize` (`icam06.go` lines
318–330): again `max = math.Max(t.maxLum, lum)` each iteration, discarding
the previous local `max` (translated literally from the source). -/
def norMaxLumTile (ops : MathOps) (t : ICam06) (coords : List (ℕ × ℕ)) : ℚ :=
  coords.foldl
    (fun _ xy => max t.maxLum (colorfullnessXsurround ops t xy.1 xy.2).2.1) 0

/-- The first reduction of `normalize` (`icam06.go` lines 315–340):
`norMaxLum` starts at `-Inf` (modelled by `none`, since
`math.Max(-Inf, x) = x`) and folds the tile results. -/
def norMaxLumOf (ops : MathOps) (t : ICam06) (tiles : List (List (ℕ × ℕ))) :
    Option ℚ :=
  tiles.foldl
    (fun acc tile =>
      let m := norMaxLumTile ops t tile
      some (match acc with
        | none => m
        | some a => max a m))
    none

/-- The percentile-table fill of `normalize` (`icam06.go` lines 358–370):
the table has `3·size` slots, zeroed by `make`; for each pixel in
scan order the code computes `i := x * y` and writes the three channels at
`i`, `size+i`, `size*2+i` (translated literally from the source).  Pixels
are given as `(x, y, r, g, b)`. -/
def fillPercentiles (size : ℕ) (pixels : List (ℕ × ℕ × ℚ × ℚ × ℚ)) : List ℚ :=
  pixels.foldl
    (fun perc p =>
      let x := p.1
      let y := p.2.1
      let r := p.2.2.1
      let g := p.2.2.2.1
      let b := p.2.2.2.2
      let i := x * y
      ((perc.set i r).set (size + i) g).set (size * 2 + i) b)
    (List.replicate (3 * size) 0)

/-- The Go conversion `int(f)` of a float to `int`:
truncation toward zero. -/
def goTruncInt (q : ℚ) : ℤ := if q < 0 then -Int.floor (-q) else Int.floor q

/-- `percentiles.percentile` (`icam06.go` lines 440–444):
`i := int(clipping * n); return p[i]`.  The Go slice access panics when the
index is out of bounds; the model returns `none` in that case. -/
def percentile (p : List ℚ) (clipping : ℚ) : Option ℚ :=
  let n : ℚ := (p.length : ℚ)
  let i : ℤ := goTruncInt (clipping * n)
  if i < 0 then none else p.get? i.toNat

/-- Modelled from the spec: `WoB` ("white or black"), the boolean-to-float
helper of the `tmo` package (source file not provided), 1 for true, 0 for false. -/
def WoB (b : Bool) : ℚ := if b then 1 else 0

/-- Modelled from the spec: `RangeMax`, the 16-bit output range maximum of
the `tmo` package (source file not provided), 65535. -/
def RangeMax : ℚ := 65535

/-- `normalizeC` (`icam06.go` lines 402–407), the sRGB-style transfer
function feeding the 16-bit channel encoder; the value is returned before
the final Go `uint16` conversion (whose out-of-range behavior is
implementation-defined). -/
def normalizeC (ops : MathOps) (channel : ℚ) : ℚ :=
  let c := WoB (decide ((-0.0031308 ≤ channel) ∧ channel ≤ 0.0031308)) *
    channel * 12.92
  let c := c + WoB (decide (0.0031308 < channel)) *
    (ops.pow channel (1 / 2.4) * 1.055 - 0.055)
  RangeMax * c

/-- The second-pass per-pixel body of `normalize` (`icam06.go` lines
378–397): clip each channel by `(v − minRGB)/(maxRGB − minRGB)` clamped
into `[0, 1]`, encode with `normalizeC`, alpha `RangeMax`. -/
def normalizePixel (ops : MathOps) (t : ICam06)
    (norMaxLum minRGB maxRGB : ℚ) (x y : ℕ) : ℚ × ℚ × ℚ × ℚ :=
  let p := normLum ops t norMaxLum x y
  let r := Clamp 0 1 ((p.1 - minRGB) / (maxRGB - minRGB))
  let g := Clamp 0 1 ((p.2.1 - minRGB) / (maxRGB - minRGB))
  let b := Clamp 0 1 ((p.2.2 - minRGB) / (maxRGB - minRGB))
  (normalizeC ops r, normalizeC ops g, normalizeC ops b, RangeMax)

/-- The part of `Perform` that runs after the tone-compression stage has
overwritten the white-point buffer (`icam06.go` lines 101–139 and 314–400):
detail layer, detail combination (whose result becomes
`t.detailCombined`), then the final-normalization per-pixel output.  The
globals `norMaxLum`, `minRGB`, `maxRGB` of `normalize` are passed
explicitly; they are produced by `norMaxLumOf`, `fillPercentiles` and
`percentile`, shown separately to be independent of `t.white`. -/
def performRest (ops : MathOps) (t : ICam06) (toneCompressed : Img)
    (norMaxLum minRGB maxRGB : ℚ) (x y : ℕ) : ℚ × ℚ × ℚ × ℚ :=
  let detailLayer : Img := fun x y => detailLayerAt ops t x y
  let t2 := { t with
    detailCombined := fun x y => detailCombineAt toneCompressed detailLayer x y }
  normalizePixel ops t2 norMaxLum minRGB maxRGB x y

/-- Extended float: the IEEE-754 `float64` value classes relevant to the
NaN/infinity claims.  Finite values carry their exact rational value
(rounding and overflow are irrelevant to the operations modelled here);
zero is the IEEE `+0`, which is what `a - a` produces for finite `a`. -/
inductive EFloat where
  | finite (q : ℚ)
  | pinf
  | ninf
  | nan
deriving DecidableEq

/-- IEEE subtraction on the value classes (Go `a - b` on `float64`). -/
def EFloat.sub : EFloat → EFloat → EFloat
  | .nan, _ => .nan
  | _, .nan => .nan
  | .finite a, .finite b => .finite (a - b)
  | .finite _, .pinf => .ninf
  | .finite _, .ninf => .pinf
  | .pinf, .finite _ => .pinf
  | .ninf, .finite _ => .ninf
  | .pinf, .ninf => .pinf
  | .ninf, .pinf => .ninf
  | .pinf, .pinf => .nan
  | .ninf, .ninf => .nan

/-- IEEE division on the value classes (Go `a / b` on `float64`); division
of a nonzero finite value by (+)0 gives a signed infinity, `0/0` gives NaN. -/
def EFloat.div : EFloat → EFloat → EFloat
  | .nan, _ => .nan
  | _, .nan => .nan
  | .finite a, .finite b =>
    if b = 0 then
      if a = 0 then .nan else if 0 < a then .pinf else .ninf
    else .finite (a / b)
  | .finite _, .pinf => .finite 0
  | .finite _, .ninf => .finite 0
  | .pinf, .finite b => if 0 ≤ b then .pinf else .ninf
  | .ninf, .finite b => if 0 ≤ b then .ninf else .pinf
  | .pinf, _ => .nan
  | .ninf, _ => .nan

/-- IEEE `<` on the value classes: any comparison with NaN is false. -/
def EFloat.lt : EFloat → EFloat → Bool
  | .finite a, .finite b => decide (a < b)
  | .finite _, .pinf => true
  | .ninf, .finite _ => true
  | .ninf, .pinf => true
  | _, _ => false

/-- `math.IsNaN`. -/
def EFloat.isNaN : EFloat → Bool
  | .nan => true
  | _ => false

/-- `math.IsInf(x, 1)`. -/
def EFloat.isInfPos : EFloat → Bool
  | .pinf => true
  | _ => false

/-- `math.IsInf(x, -1)`. -/
def EFloat.isInfNeg : EFloat → Bool
  | .ninf => true
  | _ => false

/-- Modelled from the spec: `util.Clamp` on `float64` values (source of the
`util` package not provided), clamping `v` into `[lo, hi]` with IEEE
comparison semantics.  Both standard Go implementations (an `if` chain on
`<`/`>`, or `math.Min(math.Max(v, lo), hi)`) agree on this behavior: NaN
passes through (every comparison with NaN is false; `Max`/`Min` propagate
NaN), `+Inf` clamps to `hi`, `-Inf` clamps to `lo`. -/
def clampE (lo hi v : EFloat) : EFloat :=
  if EFloat.lt v lo then lo else if EFloat.lt hi v then hi else v

/-- One channel of the final clipping step of `normalize` (`icam06.go`
line 384): `util.Clamp(0, 1, (v-minRGB)/(maxRGB-minRGB))`, over the IEEE
value classes.  Its result is the value handed to the 16-bit channel
encoder `normalizeC`. -/
def clipChannel (minRGB maxRGB v : EFloat) : EFloat :=
  clampE (.finite 0) (.finite 1) ((v.sub minRGB).div (maxRGB.sub minRGB))

/-- `clampToZero` (`icam06.go` lines 409–414): 0 for NaN and ±Inf, the
input unchanged otherwise. -/
def clampToZero (x : EFloat) : EFloat :=
  if x.isNaN || x.isInfNeg || x.isInfPos then .finite 0 else x

/-- IEEE multiplication on the value classes (Go `a * b` on `float64`);
zero times an infinity gives NaN. -/
def EFloat.mul : EFloat → EFloat → EFloat
  | .nan, _ => .nan
  | _, .nan => .nan
  | .finite a, .finite b => .finite (a * b)
  | .finite a, .pinf => if a = 0 then .nan else if 0 < a then .pinf else .ninf
  | .finite a, .ninf => if a = 0 then .nan else if 0 < a then .ninf else .pinf
  | .pinf, .finite b => if b = 0 then .nan else if 0 < b then .pinf else .ninf
  | .ninf, .finite b => if b = 0 then .nan else if 0 < b then .ninf else .pinf
  | .pinf, .pinf => .pinf
  | .pinf, .ninf => .ninf
  | .ninf, .pinf => .ninf
  | .ninf, .ninf => .pinf

/-- IEEE `≤` on the value classes: any comparison with NaN is false. -/
def EFloat.le : EFloat → EFloat → Bool
  | .finite a, .finite b => decide (a ≤ b)
  | .finite _, .pinf => true
  | .ninf, .finite _ => true
  | .ninf, .pinf => true
  | .pinf, .pinf => true
  | .ninf, .ninf => true
  | _, _ => false

/-- One channel of the Normalizer stage over the IEEE value classes
(`Perform`, `icam06.go` lines 76–83):
`util.Clamp(0.00000001, maxLum, (v/t.maxLum)*maxLum)`.  Unlike the exact
rational `normalizedChannel`, this model keeps the NaN path taken when both
the computed peak `t.maxLum` and the channel value are zero. -/
def normalizedChannelE (tMaxLum v : EFloat) : EFloat :=
  clampE (.finite 0.00000001) (.finite maxLumConst)
    ((v.div tMaxLum).mul (.finite maxLumConst))

/-- The HDR color union from `hdrcolor/color.go`: linear-RGB, XYZ, and
raw-channel variants. -/
inductive HDRColor where
  | RGB (r g b : ℚ)
  | XYZ (x y z : ℚ)
  | RAW (p1 p2 p3 : ℚ)

/-- `HDRRGBA` (`hdrcolor/color.go`): per-variant red/green/blue/alpha.
`RAW.HDRRGBA` aliases `RAW.HDRPixel`, which returns the raw channels. -/
def HDRRGBA : HDRColor → ℚ × ℚ × ℚ × ℚ
  | .RGB r g b => (r, g, b, 0xFFFF)
  | .XYZ x y z =>
    let p := XyzToLinearRgb x y z
    (p.1, p.2.1, p.2.2, 0xFFFF)
  | .RAW p1 p2 p3 => (p1, p2, p3, 0xFFFF)

/-- `HDRXYZA` (`hdrcolor/color.go`): per-variant x/y/z/alpha.
`RAW.HDRXYZA` aliases `RAW.HDRPixel`. -/
def HDRXYZA : HDRColor → ℚ × ℚ × ℚ × ℚ
  | .RGB r g b =>
    let p := LinearRgbToXyz r g b
    (p.1, p.2.1, p.2.2, 0xFFFF)
  | .XYZ x y z => (x, y, z, 0xFFFF)
  | .RAW p1 p2 p3 => (p1, p2, p3, 0xFFFF)

/-- `HDRPixel` (`hdrcolor/color.go`): `RGB.HDRPixel` aliases `HDRRGBA`,
`XYZ.HDRPixel` aliases `HDRXYZA`, `RAW.HDRPixel` returns the raw channels. -/
def HDRPixel : HDRColor → ℚ × ℚ × ℚ × ℚ
  | .RGB r g b => HDRRGBA (.RGB r g b)
  | .XYZ x y z => HDRXYZA (.XYZ x y z)
  | .RAW p1 p2 p3 => (p1, p2, p3, 0xFFFF)

/-- Claim C1 (code bug, evaluation at the failing input).  The spec demands
that `luminance()` set the peak luminance to `max(cap, observed maximum Y
over all pixels)` with cap 20000.  The code instead executes
`max = math.Max(t.maxLum, lum)` inside the pixel loop, discarding the
running maximum, and `t.maxLum` starts at the Go zero value 0, not at the
cap.  On a single-tile 1×2 image with Y values `[30000, 10]` the computed
peak is 10: below the cap 20000, below the pixel value 30000, and different
from the peak demanded by the spec (30000). -/
theorem luminance_differs_from_spec_peak :
    luminance [[30000, 10]] = 10 ∧
    luminance [[30000, 10]] < maxLumConst ∧
    specPeakLuminance [30000, 10] = 30000 ∧
    luminance [[30000, 10]] ≠ specPeakLuminance [30000, 10] :=
  ⟨by decide, by decide, by decide, by decide⟩

/-- Claim C2 (code bug, evaluation at the failing input).  Because the tile
task of `luminance()` keeps only `math.Max(t.maxLum, lum)` of the last
pixel it visits, the reduction result depends on the tile shape: the same
two-pixel image yields peak 10 with one tile and peak 30000 with one tile
per pixel, and the stage-2 normalized value of the second pixel then
differs (20000 versus 20/3), so `Perform` output rasters are not
independent of tiling. -/
theorem perform_output_depends_on_tiling :
    luminance [[30000, 10]] ≠ luminance [[30000], [10]] ∧
    normalizedChannel (luminance [[30000, 10]]) 10 ≠
      normalizedChannel (luminance [[30000], [10]]) 10 := by
  constructor
  · decide
  · have h1 : luminance [[30000, 10]] = 10 := by decide
    have h2 : luminance [[30000], [10]] = 30000 := by decide
    rw [h1, h2]
    norm_num [normalizedChannel, Clamp, maxLumConst, max_def, min_def]

/-- Claim C3 (code bug, evaluation at the failing input).  The percentile
table does have exactly `3·(width·height)` entries, but the slot index is
computed as `i := x * y`, so distinct pixels collide: on a 2×2 image with
per-pixel red samples 1, 2, 3, 4, pixels (0,0), (1,0) and (0,1) all write
slot 0, the final table is `[3, 4, 0, 0, …]`, and the sample 1 of pixel
(0,0) is absent from the table — samples are overwritten, contradicting
the claim that every channel of every pixel is stored in a distinct slot. -/
theorem percentile_table_overwrites_samples :
    (fillPercentiles 4
        [(0,0,1,10,100), (1,0,2,20,200), (0,1,3,30,300), (1,1,4,40,400)]).length
      = 3 * 4 ∧
    fillPercentiles 4
        [(0,0,1,10,100), (1,0,2,20,200), (0,1,3,30,300), (1,1,4,40,400)]
      = [3, 4, 0, 0, 30, 40, 0, 0, 300, 400, 0, 0] ∧
    (1 : ℚ) ∉ fillPercentiles 4
        [(0,0,1,10,100), (1,0,2,20,200), (0,1,3,30,300), (1,1,4,40,400)] :=
  ⟨by decide, by decide, by decide⟩

/-- Claim C4 (counterexample).  The claim states that when
`maxRGB == minRGB` the degenerate quotient reaches the 16-bit channel
encoder.  With `minRGB = maxRGB = 0` and channel value 1 the quotient is
`+Inf`, but `util.Clamp(0, 1, ·)` converts `+Inf` to 1, so the value handed
to the encoder is 1, not the quotient. -/
theorem clipping_infinity_clamped_not_propagated :
    (EFloat.sub (.finite 1) (.finite 0)).div (EFloat.sub (.finite 0) (.finite 0))
      = .pinf ∧
    clipChannel (.finite 0) (.finite 0) (.finite 1) = .finite 1 ∧
    EFloat.finite 1 ≠ .pinf := by
  refine ⟨?_, ?_, by simp⟩
  · norm_num [EFloat.sub, EFloat.div]
  · norm_num [clipChannel, clampE, EFloat.sub, EFloat.div, EFloat.lt]

/-- Claim C4 (amended).  When `maxRGB = minRGB` (both finite) the final
clipping step divides by zero and no error is raised; the NaN quotient
arising for a channel value equal to `minRGB` passes through the `[0, 1]`
clamp unchanged and reaches the 16-bit channel encoder, while the
±Infinity quotients arising for other channel values are converted by the
clamp to 1 (value above `minRGB`) or 0 (value below) before encoding. -/
theorem clipping_degenerate_range_nan_reaches_encoder (m v : ℚ) :
    clipChannel (.finite m) (.finite m) (.finite m) = .nan ∧
    (m < v → clipChannel (.finite m) (.finite m) (.finite v) = .finite 1) ∧
    (v < m → clipChannel (.finite m) (.finite m) (.finite v) = .finite 0) := by
  refine ⟨?_, fun h => ?_, fun h => ?_⟩
  · simp [clipChannel, clampE, EFloat.sub, EFloat.div, EFloat.lt]
  · have hne : v - m ≠ 0 := sub_ne_zero.mpr h.ne'
    have hpos : 0 < v - m := sub_pos.mpr h
    simp [clipChannel, clampE, EFloat.sub, EFloat.div, EFloat.lt, hne, hpos]
  · have hnp : ¬(0 < v - m) := by simp [sub_pos]; exact h.le
    have hne : v - m ≠ 0 := sub_ne_zero.mpr h.ne
    simp [clipChannel, clampE, EFloat.sub, EFloat.div, EFloat.lt, hnp, hne]

/-- Witness for the amended claim C4, at `minRGB = maxRGB = 0` and channel
values 0, 1 and -1. -/
theorem clipping_degenerate_range_nan_reaches_encoder_witness :
    clipChannel (.finite 0) (.finite 0) (.finite 0) = .nan ∧
    ((0 : ℚ) < 1 ∧ clipChannel (.finite 0) (.finite 0) (.finite 1) = .finite 1) ∧
    ((-1 : ℚ) < 0 ∧ clipChannel (.finite 0) (.finite 0) (.finite (-1)) = .finite 0) :=
  ⟨(clipping_degenerate_range_nan_reaches_encoder 0 0).1,
   ⟨by norm_num,
    (clipping_degenerate_range_nan_reaches_encoder 0 1).2.1 (by norm_num)⟩,
   ⟨by norm_num,
    (clipping_degenerate_range_nan_reaches_encoder 0 (-1)).2.2 (by norm_num)⟩⟩

/-- Claim C5 (confirmed).  For every sample table of length n ≥ 1 the
percentile query at clipping = 1.0 computes index `int(1.0·n) = n` and
the slice access is out of bounds (modelled by `none`); for every
clipping value p with 0 ≤ p and `int(p·n) < n` the query returns the
element at index `floor(p·n)`. -/
theorem percentile_boundary_out_of_bounds (table : List ℚ) (h : 1 ≤ table.length) :
    goTruncInt ((1 : ℚ) * (table.length : ℚ)) = (table.length : ℤ) ∧
    percentile table 1 = none ∧
    ∀ p : ℚ, 0 ≤ p →
      ∀ hh : (goTruncInt (p * (table.length : ℚ))).toNat < table.length,
        percentile table p
          = some (table.get ⟨(goTruncInt (p * (table.length : ℚ))).toNat, hh⟩) := by
  have hcast : goTruncInt ((1 : ℚ) * (table.length : ℚ)) = (table.length : ℤ) := by
    rw [one_mul, goTruncInt, if_neg (not_lt.mpr (by positivity)), Int.floor_natCast]
  refine ⟨hcast, ?_, ?_⟩
  · simp only [percentile, hcast]
    rw [if_neg (not_lt.mpr (Int.natCast_nonneg _)), Int.toNat_natCast]
    exact List.get?_eq_none.mpr le_rfl
  · intro p hp hh
    have h0 : (0 : ℚ) ≤ p * (table.length : ℚ) := mul_nonneg hp (Nat.cast_nonneg _)
    have hge : 0 ≤ goTruncInt (p * (table.length : ℚ)) := by
      rw [goTruncInt, if_neg (not_lt.mpr h0)]
      exact Int.floor_nonneg.mpr h0
    simp only [percentile]
    rw [if_neg (not_lt.mpr hge)]
    exact List.get?_eq_get hh

/-- Witness for claim C5, at the concrete table `[3, 5]` with the queries
`clipping = 1` (out of bounds) and `clipping = 1/2` (returns the element
at index `floor(1/2 · 2) = 1`). -/
theorem percentile_boundary_out_of_bounds_witness :
    (1 ≤ ([3, 5] : List ℚ).length) ∧
    percentile ([3, 5] : List ℚ) 1 = none ∧
    (0 ≤ (1/2 : ℚ)) ∧
    percentile ([3, 5] : List ℚ) (1/2) = some 5 := by
  have h := percentile_boundary_out_of_bounds [3, 5] (by norm_num)
  have hidx : goTruncInt ((1/2 : ℚ) * (([3, 5] : List ℚ).length : ℚ)) = 1 := by
    norm_num [goTruncInt]
  have hlt : (goTruncInt ((1/2 : ℚ) * (([3, 5] : List ℚ).length : ℚ))).toNat
      < ([3, 5] : List ℚ).length := by
    rw [hidx]; norm_num
  have h2 := h.2.2 (1/2) (by norm_num) hlt
  refine ⟨by norm_num, h.2.1, by norm_num, ?_⟩
  rw [h2]
  congr 1
  norm_num [goTruncInt]

/-- Claim C6 (confirmed).  Every pipeline computation that runs after the
tone-compression stage has overwritten the white-point buffer — the
detail-layer map, the detail combination, the color-appearance rendering
(`iptColor`, `colorfullnessXsurround`), and the final normalization
(`norMaxLumOf` reduction, `normLum`, the second-pass pixel output, and the
assembled `performRest`) — is invariant under replacing the content of the
`white` field: no later stage reads the local-white-point image.  (The only
reader of `white`, `chromaticAdaptation`, is called exclusively inside the
tone-compression stage.) -/
theorem later_stages_independent_of_white_buffer (ops : MathOps) (t : ICam06)
    (w1 w2 : Img) (toneCompressed : Img) (tiles : List (List (ℕ × ℕ)))
    (norMaxLum minRGB maxRGB : ℚ) (x y : ℕ) :
    detailLayerAt ops { t with white := w1 } x y
      = detailLayerAt ops { t with white := w2 } x y ∧
    iptColor ops { t with white := w1 } x y
      = iptColor ops { t with white := w2 } x y ∧
    colorfullnessXsurround ops { t with white := w1 } x y
      = colorfullnessXsurround ops { t with white := w2 } x y ∧
    norMaxLumOf ops { t with white := w1 } tiles
      = norMaxLumOf ops { t with white := w2 } tiles ∧
    normLum ops { t with white := w1 } norMaxLum x y
      = normLum ops { t with white := w2 } norMaxLum x y ∧
    performRest ops { t with white := w1 } toneCompressed norMaxLum minRGB maxRGB x y
      = performRest ops { t with white := w2 } toneCompressed norMaxLum minRGB maxRGB x y :=
  ⟨rfl, rfl, rfl, rfl, rfl, rfl⟩

/-- Helper: on finite arguments with `lo ≤ hi`, the IEEE clamp agrees with
the rational clamp. -/
theorem clampE_finite (lo hi v : ℚ) (h : lo ≤ hi) :
    clampE (.finite lo) (.finite hi) (.finite v) = .finite (Clamp lo hi v) := by
  simp only [clampE, EFloat.lt, decide_eq_true_eq, Clamp]
  rcases lt_or_le v lo with h1 | h1
  · rw [if_pos h1, max_eq_right h1.le, min_eq_left h]
  · rw [if_neg (not_lt.mpr h1), max_eq_left h1]
    rcases lt_or_le hi v with h2 | h2
    · rw [if_pos h2, min_eq_right h2.le]
    · rw [if_neg (not_lt.mpr h2), min_eq_left h2]

/-- Claim C7 (counterexample).  The claim asserts every normalized channel
lies in `[1e-8, 20000]` and is nonzero.  Over the IEEE value classes this
fails: a zero computed peak is reachable with ordinary inputs (the
luminance scan of an all-black image returns 0, since it applies no cap
floor), and there a zero channel computes `0/0 = NaN`, which the clamp
propagates — neither claimed bound holds of NaN under IEEE comparison. -/
theorem normalizer_channel_nan_at_zero_peak :
    luminance [[0]] = 0 ∧
    normalizedChannelE (.finite 0) (.finite 0) = .nan ∧
    EFloat.le (.finite 0.00000001) (normalizedChannelE (.finite 0) (.finite 0))
      = false ∧
    EFloat.le (normalizedChannelE (.finite 0) (.finite 0)) (.finite maxLumConst)
      = false := by
  have hnan : normalizedChannelE (.finite 0) (.finite 0) = .nan := by
    norm_num [normalizedChannelE, EFloat.div, EFloat.mul, clampE, EFloat.lt]
  refine ⟨by decide, hnan, ?_, ?_⟩ <;> rw [hnan] <;> rfl

/-- Claim C7 (amended).  Each channel of the Normalizer stage is computed
as `Clamp(1e-8, 20000, (v / peakLuminance) · 20000)`.  Whenever the
computed peak luminance is nonzero, the IEEE value-class result equals the
exact rational clamp value, lies in `[1e-8, 20000]` and is never exactly
zero.  When the peak is zero, a zero channel value yields NaN (which the
clamp propagates downstream), a positive channel value clamps to 20000,
and a negative one clamps to 1e-8. -/
theorem normalizer_channel_bounds_unless_zero_peak (peak v : ℚ) :
    (peak ≠ 0 →
      normalizedChannelE (.finite peak) (.finite v)
        = .finite (normalizedChannel peak v) ∧
      0.00000001 ≤ normalizedChannel peak v ∧
      normalizedChannel peak v ≤ 20000 ∧
      normalizedChannel peak v ≠ 0) ∧
    (peak = 0 ∧ v = 0 →
      normalizedChannelE (.finite peak) (.finite v) = .nan) ∧
    (peak = 0 ∧ 0 < v →
      normalizedChannelE (.finite peak) (.finite v) = .finite maxLumConst) ∧
    (peak = 0 ∧ v < 0 →
      normalizedChannelE (.finite peak) (.finite v) = .finite 0.00000001) := by
  have hb : (0.00000001 : ℚ) ≤ normalizedChannel peak v :=
    le_min (le_max_right _ _) (by norm_num [maxLumConst])
  refine ⟨fun hpk => ⟨?_, hb, min_le_right _ _,
      fun h0 => absurd (h0 ▸ hb) (by norm_num)⟩,
    fun hz => ?_, fun hz => ?_, fun hz => ?_⟩
  · simp only [normalizedChannelE, EFloat.div, EFloat.mul, if_neg hpk]
    rw [clampE_finite _ _ _ (by norm_num [maxLumConst])]
    rfl
  · obtain ⟨h1, h2⟩ := hz
    subst h1; subst h2
    norm_num [normalizedChannelE, EFloat.div, EFloat.mul, clampE, EFloat.lt]
  · obtain ⟨h1, h2⟩ := hz
    subst h1
    simp only [normalizedChannelE, EFloat.div, EFloat.mul, if_pos rfl,
      if_neg h2.ne', if_pos h2]
    norm_num [maxLumConst, clampE, EFloat.lt]
  · obtain ⟨h1, h2⟩ := hz
    subst h1
    simp only [normalizedChannelE, EFloat.div, EFloat.mul, if_pos rfl,
      if_neg h2.ne, if_neg (not_lt.mpr h2.le)]
    norm_num [maxLumConst, clampE, EFloat.lt]

/-- Witness for the amended claim C7: peak 10 with channel 10 (nonzero
peak, bounds hold), and peak 0 with channel values 0 (NaN), 1 (clamps to
20000) and -1 (clamps to 1e-8). -/
theorem normalizer_channel_bounds_unless_zero_peak_witness :
    ((10 : ℚ) ≠ 0 ∧
      normalizedChannelE (.finite 10) (.finite 10)
        = .finite (normalizedChannel 10 10) ∧
      0.00000001 ≤ normalizedChannel 10 10 ∧
      normalizedChannel 10 10 ≤ 20000 ∧
      normalizedChannel 10 10 ≠ 0) ∧
    normalizedChannelE (.finite 0) (.finite 0) = .nan ∧
    ((0 : ℚ) < 1 ∧
      normalizedChannelE (.finite 0) (.finite 1) = .finite maxLumConst) ∧
    ((-1 : ℚ) < 0 ∧
      normalizedChannelE (.finite 0) (.finite (-1)) = .finite 0.00000001) :=
  ⟨⟨by norm_num, (normalizer_channel_bounds_unless_zero_peak 10 10).1 (by norm_num)⟩,
   (normalizer_channel_bounds_unless_zero_peak 0 0).2.1 ⟨rfl, rfl⟩,
   ⟨by norm_num,
    (normalizer_channel_bounds_unless_zero_peak 0 1).2.2.1 ⟨rfl, by norm_num⟩⟩,
   ⟨by norm_num,
    (normalizer_channel_bounds_unless_zero_peak 0 (-1)).2.2.2 ⟨rfl, by norm_num⟩⟩⟩

/-- Claim C8 (confirmed).  `NewICam06` silently clamps every numeric
parameter into its documented range — contrast into `[0.6, 0.85]`, both
clipping percentiles into `[0, 1]` — never rejecting out-of-range input
(the constructor is total); in particular contrast 2.0 yields 0.85,
contrast 0.1 yields 0.6, minClipping -1 yields 0, maxClipping 5 yields 1. -/
theorem constructor_clamps_parameters :
    (∀ (m : HDRImageT) (c mn mx : ℚ),
        0.6 ≤ (NewICam06 m c mn mx).Contrast ∧
        (NewICam06 m c mn mx).Contrast ≤ 0.85 ∧
        0 ≤ (NewICam06 m c mn mx).MinClipping ∧
        (NewICam06 m c mn mx).MinClipping ≤ 1 ∧
        0 ≤ (NewICam06 m c mn mx).MaxClipping ∧
        (NewICam06 m c mn mx).MaxClipping ≤ 1) ∧
    (∀ (m : HDRImageT) (mn mx : ℚ), (NewICam06 m 2 mn mx).Contrast = 0.85) ∧
    (∀ (m : HDRImageT) (mn mx : ℚ), (NewICam06 m 0.1 mn mx).Contrast = 0.6) ∧
    (∀ (m : HDRImageT) (c mx : ℚ), (NewICam06 m c (-1) mx).MinClipping = 0) ∧
    (∀ (m : HDRImageT) (c mn : ℚ), (NewICam06 m c mn 5).MaxClipping = 1) := by
  refine ⟨fun m c mn mx => ?_, fun m mn mx => ?_, fun m mn mx => ?_,
    fun m c mx => ?_, fun m c mn => ?_⟩
  · exact ⟨le_min (le_max_right _ _) (by norm_num), min_le_right _ _,
      le_min (le_max_right _ _) (by norm_num), min_le_right _ _,
      le_min (le_max_right _ _) (by norm_num), min_le_right _ _⟩
  · norm_num [NewICam06, Clamp, max_def, min_def]
  · norm_num [NewICam06, Clamp, max_def, min_def]
  · norm_num [NewICam06, Clamp, max_def, min_def]
  · norm_num [NewICam06, Clamp, max_def, min_def]

/-- Claim C9 (confirmed).  `clampToZero` returns 0 for NaN, +Infinity and
-Infinity, and returns the input unchanged for every other (finite) value,
including negative ones. -/
theorem clampToZero_spec :
    clampToZero .nan = .finite 0 ∧
    clampToZero .pinf = .finite 0 ∧
    clampToZero .ninf = .finite 0 ∧
    ∀ q : ℚ, clampToZero (.finite q) = .finite q :=
  ⟨rfl, rfl, rfl, fun _ => rfl⟩

/-- Claim C10 (confirmed).  For every color value of the three HDR variants
(RGB, XYZ, RAW), each capability method (`HDRRGBA`, `HDRXYZA`, `HDRPixel`)
returns alpha exactly 0xFFFF = 65535, regardless of the stored channels. -/
theorem hdrcolor_alpha_always_opaque (c : HDRColor) :
    (HDRRGBA c).2.2.2 = 65535 ∧
    (HDRXYZA c).2.2.2 = 65535 ∧
    (HDRPixel c).2.2.2 = 65535 := by
  cases c <;> exact ⟨rfl, rfl, rfl⟩

end HDRVerify
